import Mathlib

/-!
# Verification of the TF2 killicon sprite-sheet generator

Shallow embedding of the core pipeline of `generate.py`:
the definition-file block parser (`parse_mod_textures`,
`parse_community_mod_textures`), the name resolver (`find_weapon_icon`
with the static `WEAPON_MAPPINGS` / `WEAPON_ALIASES` tables), the shelf
packer (`pack_sprites`) and the stylesheet emitter (`generate_css`).

Python dictionaries are modelled as association lists in insertion
order (`alookup` / `dictInsert`); Python strings as Lean `String`;
Python `int` values as `Int`.  The resolver's self-recursion is modelled
with an explicit fuel argument standing for the Python call stack: a
result of `none` means the call never returns (a `RecursionError` in
CPython), `some r` means it returns `r`.
-/

/-- The whitespace class used by Python's `str.strip()` / `\s`
(restricted to the ASCII range, which is all that occurs in the data). -/
def pyIsSpace (c : Char) : Bool :=
  c = ' ' || c = '\t' || c = '\n' || c = '\r' || c = '\x0b' || c = '\x0c'

/-- Python `str.strip()` on a list of characters. -/
def pyStripList (cs : List Char) : List Char :=
  ((cs.dropWhile pyIsSpace).reverse.dropWhile pyIsSpace).reverse

/-- Python `str.strip()`. -/
def pyStrip (s : String) : String :=
  (pyStripList s.toList).asString

/-- Python `str.lower()` on one character (ASCII range). -/
def pyLowerChar (c : Char) : Char :=
  if 'A' ≤ c ∧ c ≤ 'Z' then Char.ofNat (c.toNat + 32) else c

/-- Python `str.lower()` (ASCII range). -/
def pyLower (s : String) : String :=
  (s.toList.map pyLowerChar).asString

/-- Decimal digit run to a natural number. -/
def digitsToNat (ds : List Char) : Nat :=
  ds.foldl (fun acc c => acc * 10 + (c.toNat - '0'.toNat)) 0

/-- Python `int(str)`: optional surrounding whitespace, optional sign,
then a non-empty run of decimal digits; anything else raises
`ValueError`, modelled as `none`.  (Underscore digit grouping and
non-ASCII digits, which never occur in the data, are not modelled.) -/
def pyInt? (s : String) : Option Int :=
  let cs := pyStripList s.toList
  let core : List Char → Option Int := fun ds =>
    if ds ≠ [] && ds.all Char.isDigit then some (Int.ofNat (digitsToNat ds)) else none
  match cs with
  | '+' :: ds => core ds
  | '-' :: ds => (core ds).map Int.neg
  | ds => core ds

/-- `pat` occurs as a contiguous sublist of `hay` (an occurrence may
start at any position; the empty pattern always occurs). -/
def listContains (pat : List Char) : List Char → Bool
  | [] => pat.isEmpty
  | c :: t => pat.isPrefixOf (c :: t) || listContains pat t

/-- Python `pat in hay` (contiguous substring containment). -/
def strContains (hay pat : String) : Bool :=
  listContains pat.toList hay.toList

/-- Python `s.split(sep)` for a single-character separator: splitting
`""` gives `[""]`, and empty fields are kept. -/
def splitOnChar (sep : Char) : List Char → List (List Char)
  | [] => [[]]
  | c :: rest =>
    let r := splitOnChar sep rest
    if c = sep then [] :: r
    else
      match r with
      | h :: t => (c :: h) :: t
      | [] => [[c]]

/-- Python `parts[-1]` on a non-empty list (with a default for the
empty list, which `split` never produces). -/
def lastD {α : Type} (dflt : α) : List α → α
  | [] => dflt
  | [a] => a
  | _ :: b :: t => lastD dflt (b :: t)

/-- Python `s.replace('HUD/', '')`: remove every (left-to-right,
non-overlapping) occurrence of `HUD/`. -/
def removeHUD : List Char → List Char
  | 'H' :: 'U' :: 'D' :: '/' :: rest => removeHUD rest
  | c :: rest => c :: removeHUD rest
  | [] => []

/-- Python string comparison `a < b` on character lists: lexicographic
by code point, a strict prefix is smaller. -/
def listLt : List Char → List Char → Bool
  | _, [] => false
  | [], _ :: _ => true
  | a :: as, b :: bs => if a = b then listLt as bs else decide (a.toNat < b.toNat)

/-- Python `a < b` on strings. -/
def strLtb (a b : String) : Bool :=
  listLt a.toList b.toList

/-- Python `a <= b` on strings (the total preorder `sorted` uses). -/
def pyStrLe (a b : String) : Bool :=
  ! strLtb b a

/-- Python dictionary read `d.get(k)` / `d[k]` over an association list
in insertion order (keys are unique in every list we build). -/
def alookup {α β : Type} [DecidableEq α] (k : α) : List (α × β) → Option β
  | [] => none
  | p :: l => if p.1 = k then some p.2 else alookup k l

/-- Python dictionary write `d[k] = v`: replace the value in place if
the key exists, otherwise append the new pair. -/
def dictInsert {α β : Type} [DecidableEq α] (l : List (α × β)) (k : α) (v : β) :
    List (α × β) :=
  if k ∈ l.map Prod.fst then
    l.map (fun p => if p.1 = k then (k, v) else p)
  else
    l ++ [(k, v)]

/-- One killicon definition from `mod_textures.txt`
(class `KilliconDefinition` in the source). -/
structure KilliconDefinition where
  name : String
  sprite : String
  x : Int
  y : Int
  width : Int
  height : Int
deriving DecidableEq, Repr

/-- The static `WEAPON_MAPPINGS` table (log-name to internal-name
renames), in source order. -/
def WEAPON_MAPPINGS : List (String × String) :=
  [("robot_arm", "robot_arm_kill"),
   ("unique_pickaxe", "pickaxe"),
   ("world", "skull"),
   ("trigger_hurt", "skull"),
   ("env_explosion", "skull"),
   ("player", "skull"),
   ("tf_pumpkin_bomb", "pumpkindeath"),
   ("default", "saw_kill"),
   ("grenadelauncher", "tf_projectile_pipe"),
   ("rocketlauncher", "tf_projectile_rocket"),
   ("stickybomb_launcher", "tf_projectile_pipe_remote"),
   ("flamethrower", "tf_weapon_flamethrower"),
   ("knife", "tf_weapon_knife"),
   ("frontier_justice", "frontier_kill"),
   ("southern_hospitality", "southern_comfort_kill"),
   ("golden_wrench", "wrench_golden"),
   ("gunslinger", "robot_arm_kill"),
   ("jag", "wrench_jag"),
   ("wrangler", "wrangler_kill"),
   ("chargin_targe", "demoshield"),
   ("loose_cannon", "loose_cannon_impact"),
   ("tf_projectile_mechanicalarmorb", "tf_projectile_mechanicalarmor"),
   ("baby_face_blaster", "pep_brawlerblaster"),
   ("winger", "the_winger"),
   ("pretty_boy_pocket_pistol", "pep_pistol"),
   ("flying_guillotine", "guillotine"),
   ("three_rune_blade", "boston_basher"),
   ("sun_on_a_stick", "lava_bat"),
   ("fan_o_war", "warfan"),
   ("black_box", "blackbox"),
   ("beggars_bazooka", "dumpster_device"),
   ("beggar", "dumpster_device"),
   ("direct_hit", "rocketlauncher_directhit"),
   ("original", "quake_rl"),
   ("escape_plan", "pickaxe"),
   ("equalizer", "pickaxe"),
   ("unique_pickaxe_escape", "pickaxe"),
   ("dragon_fury", "ai_flamethrower"),
   ("neon_annihilator", "annihilator"),
   ("third_degree", "thirddegree"),
   ("homewrecker", "sledgehammer"),
   ("sharpened_volcano_fragment", "lava_axe"),
   ("postal_pummeler", "mailbox"),
   ("huo_long_heater", "long_heatmaker"),
   ("fists", "gloves"),
   ("gru", "gloves_running_urgently"),
   ("fists_of_steel", "steel_fists"),
   ("gas_passer", "gas_blast"),
   ("vita_saw", "battleneedle"),
   ("overdose", "proto_syringe"),
   ("hitman_heatmaker", "pro_rifle"),
   ("cleaners_carbine", "pro_smg"),
   ("kukri", "club"),
   ("bushwacka", "tribalkukri"),
   ("big_kill", "samrevolver"),
   ("l_etranger", "letranger"),
   ("your_eternal_reward", "eternal_reward"),
   ("conniver_kunai", "kunai"),
   ("half_zatoichi", "demokatana"),
   ("conscientious_objector", "nonnonviolent_protest"),
   ("taunt_guitar_kill", "taunt_guitar_kill"),
   ("backscatter", "back_scatter"),
   ("nessie_club", "nessieclub"),
   ("horseless_headless_horsemann", "headtaker"),
   ("sentry_buster", "ullapool_caber"),
   ("holy_mackerel", "holymackerel"),
   ("pda_engineer", "saw_kill"),
   ("tf_projectile_arrow", "huntsman"),
   ("cleaver", "guillotine")]

/-- The static `WEAPON_ALIASES` table (alias to canonical name),
in source order. -/
def WEAPON_ALIASES : List (String × String) :=
  [("holymackerel", "holy_mackerel"),
   ("force-a-nature", "force_a_nature"),
   ("lugermorph", "maxgun"),
   ("shotgun_soldier", "shotgun_primary"),
   ("shotgun_hwg", "shotgun_primary"),
   ("shotgun_pyro", "shotgun_primary"),
   ("pistol_scout", "pistol"),
   ("pistol_engineer", "pistol"),
   ("awper_hand", "sniperrifle"),
   ("compound_bow", "huntsman")]

/-- `find_weapon_icon` from the source, with the two static tables as
explicit parameters and an explicit `fuel` argument for the Python call
stack.  The source recursion (step 4, alias fallback) has no depth
guard, so a `fuel`-exhaustion result `none` models a call that never
returns; `some r` models a normal return of `r`. -/
def find_weapon_icon (mappings aliases : List (String × String)) :
    Nat → String → List (String × KilliconDefinition) → Option (Option KilliconDefinition)
  | 0, _, _ => none
  | fuel + 1, weaponName, definitions =>
    let mapped := (alookup weaponName mappings).getD weaponName
    match alookup mapped definitions with
    | some d => some (some d)
    | none =>
      match ["_kill", "death"].findSome? (fun sfx => alookup (mapped ++ sfx) definitions) with
      | some d => some (some d)
      | none =>
        match definitions.find? (fun p => strContains p.1 mapped || strContains mapped p.1) with
        | some p => some (some p.2)
        | none =>
          match alookup weaponName aliases with
          | some canonical => find_weapon_icon mappings aliases fuel canonical definitions
          | none => some none

/-- Steps 1-3 of the spec's ordered resolution strategy (exact match of
the mapped name, the fixed suffix list, then the first substring match
in iteration order), written from the spec's words for comparison with
the source embedding. -/
def specResolveSteps123 (weaponName : String)
    (definitions : List (String × KilliconDefinition)) : Option KilliconDefinition :=
  let mapped := (alookup weaponName WEAPON_MAPPINGS).getD weaponName
  match alookup mapped definitions with
  | some d => some d
  | none =>
    match ["_kill", "death"].findSome? (fun sfx => alookup (mapped ++ sfx) definitions) with
    | some d => some d
    | none =>
      (definitions.find? (fun p => strContains p.1 mapped || strContains mapped p.1)).map Prod.snd

/-- The spec's full ordered strategy: steps 1-3 on the mapped name, then
the alias fallback on the original name (one redirection level, which is
exact for the repository's alias table since no alias target is itself
an alias key). -/
def specResolve (weaponName : String)
    (definitions : List (String × KilliconDefinition)) : Option KilliconDefinition :=
  match specResolveSteps123 weaponName definitions with
  | some d => some d
  | none =>
    match alookup weaponName WEAPON_ALIASES with
    | some canonical => specResolveSteps123 canonical definitions
    | none => none

/-! ## Definition parser

`parse_mod_textures` / `parse_community_mod_textures` scan the lines of
`mod_textures.txt`: on a stripped line that starts with a quote (and not
with `"/`), the quoted weapon name is extracted, lines are skipped up to
the next raw line containing `{`, then stripped lines are collected as
`"key" "value"` properties until a stripped line containing `}` (or end
of input).  The two parsers differ only in how a block's properties are
turned into a definition (`mkOfficialDef` vs `mkCommunityDef`); the
community scanner's extra `startswith('//')` test in the source is
subsumed by the `startswith('"')` test and has no effect. -/

/-- `line.startswith('"') and not line.startswith('"/')` on the
stripped line. -/
def isNameLine : List Char → Bool
  | '"' :: '/' :: _ => false
  | '"' :: _ => true
  | _ => false

/-- `re.match(r'"([^\x22]+)"', line)` on a stripped line: the quoted
name at the start of the line, requiring a non-empty name and a closing
quote. -/
def matchQuoted (line : String) : Option String :=
  match line.toList with
  | '"' :: cs =>
    let name := cs.takeWhile (fun c => c ≠ '"')
    if name.isEmpty then none
    else if (cs.dropWhile (fun c => c ≠ '"')).isEmpty then none
    else some name.asString
  | _ => none

/-- `re.match(r'"([^\x22]+)"\s+"([^\x22]+)"', prop_line)`: a
`"key" "value"` pair at the start of the stripped line (trailing content
is ignored, as with `re.match`). -/
def matchProp (cs : List Char) : Option (String × String) :=
  match cs with
  | '"' :: rest =>
    let key := rest.takeWhile (fun c => c ≠ '"')
    if key.isEmpty then none else
    match rest.dropWhile (fun c => c ≠ '"') with
    | '"' :: rest2 =>
      let rest3 := rest2.dropWhile pyIsSpace
      if rest2.takeWhile pyIsSpace |>.isEmpty then none else
      match rest3 with
      | '"' :: rest4 =>
        let val := rest4.takeWhile (fun c => c ≠ '"')
        if val.isEmpty then none else
        match rest4.dropWhile (fun c => c ≠ '"') with
        | '"' :: _ => some (key.asString, val.asString)
        | _ => none
      | _ => none
    | _ => none
  | _ => none

/-- `props.get(key, default)` fed to `int(...)`: an absent property
yields the integer default directly, a present property must parse. -/
def pyIntProp (props : List (String × String)) (key : String) (dflt : Int) : Option Int :=
  match alookup key props with
  | none => some dflt
  | some v => pyInt? v

/-- The official-sheet acceptance step of `parse_mod_textures`: the
block must have a `dfile` property starting (case-sensitively) with
`HUD/d_images`; the sheet id is the `dfile` value with every `HUD/`
occurrence removed, lower-cased; a `ValueError` from any present
numeric property rejects the whole block. -/
def mkOfficialDef (weaponName : String) (props : List (String × String)) :
    Option KilliconDefinition :=
  match alookup "dfile" props with
  | none => none
  | some dfile =>
    if "HUD/d_images".toList.isPrefixOf dfile.toList then
      let sprite := pyLower ((removeHUD dfile.toList).asString)
      match pyIntProp props "x" 0, pyIntProp props "y" 0,
            pyIntProp props "width" 32, pyIntProp props "height" 32 with
      | some x, some y, some w, some h => some ⟨weaponName, sprite, x, y, w, h⟩
      | _, _, _, _ => none
    else none

/-- The community acceptance step of `parse_community_mod_textures`:
the block must have a `dfile` property containing `improvedkillicons`
case-insensitively; the sheet id is `community_` followed by the last
path component (backslashes normalised to slashes, tail not
lower-cased). -/
def mkCommunityDef (weaponName : String) (props : List (String × String)) :
    Option KilliconDefinition :=
  match alookup "dfile" props with
  | none => none
  | some dfile =>
    if strContains (pyLower dfile) "improvedkillicons" then
      let parts := splitOnChar '/' (dfile.toList.map (fun c => if c = '\\' then '/' else c))
      let spriteName := "community_" ++ (lastD [] parts).asString
      match pyIntProp props "x" 0, pyIntProp props "y" 0,
            pyIntProp props "width" 32, pyIntProp props "height" 32 with
      | some x, some y, some w, some h => some ⟨weaponName, spriteName, x, y, w, h⟩
      | _, _, _, _ => none
    else none

/-- The scanner state of the line loop: looking for a quoted name,
skipping to the opening brace of the block just named, or collecting
properties inside a block.  The source's nested `while` loops over the
shared line index `i` visit each line exactly once in exactly one of
these three roles, so the loop nest is equivalently a single
left-to-right pass carrying this state. -/
inductive ScanState where
  | seekName : ScanState
  | seekBrace : String → ScanState
  | collect : String → List (String × String) → ScanState
deriving DecidableEq

/-- Finalising a block: `definitions[weapon_name] = ...` when the
acceptance function produces a definition, no change otherwise. -/
def finishBlock (mk : String → List (String × String) → Option KilliconDefinition)
    (defs : List (String × KilliconDefinition)) (name : String)
    (props : List (String × String)) : List (String × KilliconDefinition) :=
  match mk name props with
  | some d => dictInsert defs name d
  | none => defs

/-- One line of the scan.  Name detection and property collection work
on the stripped line, the `{` search on the raw line, exactly as in the
source; the line whose stripped form contains `}` finalises the block
and is otherwise ignored (the source's `break` plus outer `i += 1`). -/
def scanLine (mk : String → List (String × String) → Option KilliconDefinition)
    (acc : List (String × KilliconDefinition) × ScanState) (l : String) :
    List (String × KilliconDefinition) × ScanState :=
  match acc.2 with
  | .seekName =>
    let line := pyStrip l
    if isNameLine line.toList then
      match matchQuoted line with
      | some name => (acc.1, .seekBrace name)
      | none => (acc.1, .seekName)
    else (acc.1, .seekName)
  | .seekBrace name =>
    if l.toList.contains '{' then (acc.1, .collect name []) else (acc.1, .seekBrace name)
  | .collect name props =>
    let pl := pyStrip l
    if pl.toList.contains '}' then (finishBlock mk acc.1 name props, .seekName)
    else
      match matchProp pl.toList with
      | some (k, v) => (acc.1, .collect name (dictInsert props (pyLower k) v))
      | none => (acc.1, .collect name props)

/-- The line-scanning loop shared by both parsers, parameterised by the
block-acceptance function.  A block still open at end of input is
finalised with the properties collected so far (the source's property
loop ends at `i = len(lines)` and still runs the acceptance check);
a name whose `{` was never found contributes nothing (in the source its
empty property set has no `dfile` and is rejected). -/
def parseLoop (mk : String → List (String × String) → Option KilliconDefinition)
    (lines : List String) (defs : List (String × KilliconDefinition)) :
    List (String × KilliconDefinition) :=
  match lines.foldl (scanLine mk) (defs, ScanState.seekName) with
  | (defs', .collect name props) => finishBlock mk defs' name props
  | (defs', _) => defs'

/-- `parse_mod_textures` on the text of `scripts/mod_textures.txt`
(the VPK read and console output are external collaborators). -/
def parse_mod_textures (content : String) : List (String × KilliconDefinition) :=
  parseLoop mkOfficialDef ((splitOnChar '\n' content.toList).map List.asString) []

/-- `parse_community_mod_textures` on the text of the community
`scripts/mod_textures.txt`. -/
def parse_community_mod_textures (content : String) : List (String × KilliconDefinition) :=
  parseLoop mkCommunityDef ((splitOnChar '\n' content.toList).map List.asString) []

/-! ## Sprite packer and stylesheet emitter -/

/-- A decoded image as the packer sees it: its pixel dimensions
(`img.width` / `img.height` in the source).  pack_sprites reads only
these two fields of its `(image, orig_w, orig_h)` tuples, so the tuple
is modelled by the image dimensions alone. -/
structure Img where
  width : Nat
  height : Nat
deriving DecidableEq, Repr

/-- A placement `(x, y, width, height)` inside the composite sheet. -/
structure Rect where
  x : Nat
  y : Nat
  w : Nat
  h : Nat
deriving DecidableEq, Repr

/-- The cursor state of the shelf-packing loop, together with the
positions recorded so far (in placement order). -/
structure PackState where
  currentX : Nat
  currentY : Nat
  rowHeight : Nat
  maxWidth : Nat
  positions : List (String × Rect)
deriving Repr

/-- One iteration of the packing loop: break to a new row when placing
at `current_x` would exceed the 512 px target width and the row is
non-empty, record the placement, then advance the cursors. -/
def packStep (s : PackState) (item : String × Img) : PackState :=
  let img := item.2
  let brk := 512 < s.currentX + img.width ∧ 0 < s.currentX
  let cx := if brk then 0 else s.currentX
  let cy := if brk then s.currentY + s.rowHeight else s.currentY
  let rh := if brk then 0 else s.rowHeight
  { currentX := cx + img.width
    currentY := cy
    rowHeight := max rh img.height
    maxWidth := max s.maxWidth (cx + img.width)
    positions := s.positions ++ [(item.1, ⟨cx, cy, img.width, img.height⟩)] }

/-- `sorted(icons.items(), key=lambda x: x[1][0].height, reverse=True)`:
a stable sort descending by image height (Python's sort is stable, and
`List.insertionSort` with this total reflexive relation is the same
stable sort). -/
def sortIcons (icons : List (String × Img)) : List (String × Img) :=
  icons.insertionSort (fun a b => b.2.height ≤ a.2.height)

/-- One step of the alias post-pass of `pack_sprites`: if the canonical
name is present in the (already updated) positions table, copy its rect
to the alias. -/
def aliasStep (cur : List (String × Rect)) (p : String × String) :
    List (String × Rect) :=
  match alookup p.2 cur with
  | some r => dictInsert cur p.1 r
  | none => cur

/-- The alias post-pass of `pack_sprites`, over the alias table in
order. -/
def addAliasPositions (aliases : List (String × String))
    (ps : List (String × Rect)) : List (String × Rect) :=
  aliases.foldl aliasStep ps

/-- The result of `pack_sprites`: the composite dimensions, the list of
paste operations actually performed on the composite (one per packed
position, before aliases are added), and the final positions table. -/
structure PackResult where
  width : Nat
  height : Nat
  pastes : List (String × Rect)
  positions : List (String × Rect)
deriving DecidableEq, Repr

/-- `pack_sprites(icons, aliases)`.  An empty input yields a 1x1
transparent sheet and an empty table; otherwise the icons are packed in
stable height-descending order and alias entries are copied in
afterwards (aliases are never pasted). -/
def pack_sprites (icons : List (String × Img)) (aliases : List (String × String)) :
    PackResult :=
  if icons.isEmpty then ⟨1, 1, [], []⟩
  else
    let final := (sortIcons icons).foldl packStep ⟨0, 0, 0, 0, []⟩
    { width := final.maxWidth
      height := final.currentY + final.rowHeight
      pastes := final.positions
      positions := addAliasPositions aliases final.positions }

/-- One emitted `.killicon-NAME` rule: the declared pixel width and
height and the `background-position` offsets `-x px`/`-y px` (modelled
as the negated integers). -/
structure CssRule where
  name : String
  width : Nat
  height : Nat
  bgX : Int
  bgY : Int
deriving DecidableEq, Repr

/-- The reverse-mapping table built by `generate_css`: every
`original -> mapped` pair of `WEAPON_MAPPINGS` whose target has a
position. -/
def reverseMappings (positions : List (String × Rect)) : List (String × String) :=
  WEAPON_MAPPINGS.filter (fun p => (alookup p.2 positions).isSome)

/-- The rule a single weapon name gets in `generate_css`: the mapped
target's rect if the name is a reverse mapping, else its own rect, else
nothing. -/
def cssRuleFor (positions : List (String × Rect)) (name : String) : Option CssRule :=
  match alookup name (reverseMappings positions) with
  | some mapped =>
    (alookup mapped positions).map
      (fun r => ⟨name, r.w, r.h, -(r.x : Int), -(r.y : Int)⟩)
  | none =>
    (alookup name positions).map
      (fun r => ⟨name, r.w, r.h, -(r.x : Int), -(r.y : Int)⟩)

/-- The name set `positions.keys() | reverse-mapping keys` iterated by
`generate_css`, in Python `sorted` order (lexicographic by code point;
`insertionSort` with the total reflexive relation `pyStrLe` is the same
stable sort, and the de-duplication order is irrelevant after
sorting). -/
def cssNames (positions : List (String × Rect)) : List String :=
  ((positions.map Prod.fst ++ (reverseMappings positions).map Prod.fst).dedup).insertionSort
    (fun a b => pyStrLe a b = true)

/-- `generate_css(positions)`, modelled as the ordered list of emitted
rules: one rule per emitted name, in `sorted` order. -/
def generate_css (positions : List (String × Rect)) : List CssRule :=
  (cssNames positions).filterMap (cssRuleFor positions)

example :
    pack_sprites [("a", ⟨300, 40⟩), ("b", ⟨300, 20⟩)] [] =
      ⟨300, 60, [("a", ⟨0, 0, 300, 40⟩), ("b", ⟨0, 40, 300, 20⟩)],
        [("a", ⟨0, 0, 300, 40⟩), ("b", ⟨0, 40, 300, 20⟩)]⟩ := by decide

example :
    (pack_sprites [("sniperrifle", ⟨32, 32⟩)] WEAPON_ALIASES).positions =
      [("sniperrifle", ⟨0, 0, 32, 32⟩), ("awper_hand", ⟨0, 0, 32, 32⟩)] := by decide

example :
    generate_css [("skull", ⟨4, 5, 32, 32⟩)] =
      [⟨"env_explosion", 32, 32, -4, -5⟩, ⟨"player", 32, 32, -4, -5⟩,
       ⟨"skull", 32, 32, -4, -5⟩, ⟨"trigger_hurt", 32, 32, -4, -5⟩,
       ⟨"world", 32, 32, -4, -5⟩] := by decide

/-- A document whose single block has an unparsable `x` value. -/
def docBadX : String :=
  "\"foo\"\n\x7b\n\t\"dfile\"\t\"HUD/d_images\"\n\t\"x\"\t\"abc\"\n\x7d"

/-- A well-formed single-block document. -/
def docGood : String :=
  "\"bar\"\n\x7b\n\t\"dfile\"\t\"HUD/d_images_v2\"\n\t\"x\"\t\"64\"\n\x7d"

example : parse_mod_textures docGood =
    [("bar", ⟨"bar", "d_images_v2", 64, 0, 32, 32⟩)] := by decide

example : parse_mod_textures docBadX = [] := by decide

example : parse_mod_textures (docBadX ++ "\n" ++ docGood) =
    [("bar", ⟨"bar", "d_images_v2", 64, 0, 32, 32⟩)] := by decide

example : mkOfficialDef "foo" [("dfile", "hud/d_images")] = none := by decide

example : mkCommunityDef "foo" [("dfile", "logos\\IMPROVEDKILLICONS\\D")] =
    some ⟨"foo", "community_D", 0, 0, 32, 32⟩ := by decide

example :
    find_weapon_icon WEAPON_MAPPINGS WEAPON_ALIASES 2 "world"
      [("skull", ⟨"skull", "d_images", 0, 0, 32, 32⟩)] =
    some (some ⟨"skull", "d_images", 0, 0, 32, 32⟩) := by decide

example :
    find_weapon_icon [] [("A", "B"), ("B", "A")] 9 "A" [] = none := by decide

example : (WEAPON_MAPPINGS.map Prod.fst).Nodup := by decide

example : (WEAPON_ALIASES.map Prod.fst).Nodup := by decide

example : WEAPON_ALIASES.all (fun p => (alookup p.2 WEAPON_ALIASES).isNone) := by decide

/-! ## Association-list lemmas -/

theorem alookup_eq_none_iff {α β : Type} [DecidableEq α] (k : α) (l : List (α × β)) :
    alookup k l = none ↔ k ∉ l.map Prod.fst := by
  induction l with
  | nil => simp [alookup]
  | cons p t ih =>
    rw [List.map_cons, List.mem_cons, alookup]
    by_cases h : p.1 = k
    · simp [h]
    · rw [if_neg h]
      rw [ih]
      constructor
      · intro hk hor
        rcases hor with h1 | h2
        · exact h h1.symm
        · exact hk h2
      · intro hk h2
        exact hk (Or.inr h2)

theorem alookup_isSome_iff {α β : Type} [DecidableEq α] (k : α) (l : List (α × β)) :
    (alookup k l).isSome ↔ k ∈ l.map Prod.fst := by
  rw [← Option.ne_none_iff_isSome, ne_eq, alookup_eq_none_iff, not_not]

theorem mem_of_alookup_eq_some {α β : Type} [DecidableEq α] {k : α} {v : β}
    {l : List (α × β)} (h : alookup k l = some v) : (k, v) ∈ l := by
  induction l with
  | nil => simp [alookup] at h
  | cons p t ih =>
    rw [alookup] at h
    split at h
    · rename_i hp
      injection h with h2
      obtain ⟨a, b⟩ := p
      cases hp
      cases h2
      exact List.mem_cons_self _ _
    · exact List.mem_cons_of_mem _ (ih h)

theorem alookup_mem_values {α β : Type} [DecidableEq α] {k : α} {v : β}
    {l : List (α × β)} (h : alookup k l = some v) : v ∈ l.map Prod.snd := by
  exact List.mem_map.mpr ⟨(k, v), mem_of_alookup_eq_some h, rfl⟩

theorem alookup_map_replace_self {α β : Type} [DecidableEq α] {l : List (α × β)}
    {k : α} (v : β) (hmem : k ∈ l.map Prod.fst) :
    alookup k (l.map (fun p => if p.1 = k then (k, v) else p)) = some v := by
  induction l with
  | nil => simp at hmem
  | cons p t ih =>
    by_cases hp : p.1 = k
    · simp [alookup, hp]
    · rw [List.map_cons, if_neg hp, alookup, if_neg hp]
      apply ih
      rw [List.map_cons, List.mem_cons] at hmem
      rcases hmem with h1 | h1
      · exact absurd h1.symm hp
      · exact h1

theorem alookup_map_replace_ne {α β : Type} [DecidableEq α] (l : List (α × β))
    {k k' : α} (v : β) (h : k' ≠ k) :
    alookup k' (l.map (fun p => if p.1 = k then (k, v) else p)) = alookup k' l := by
  induction l with
  | nil => simp [alookup]
  | cons p t ih =>
    by_cases hp : p.1 = k
    · have hpk : p.1 ≠ k' := by rw [hp]; exact fun hk => h hk.symm
      rw [List.map_cons, if_pos hp, alookup, alookup, if_neg hpk]
      simp only [if_neg (Ne.symm h)]
      exact ih
    · by_cases hp' : p.1 = k'
      · rw [List.map_cons, if_neg hp, alookup, if_pos hp', alookup, if_pos hp']
      · rw [List.map_cons, if_neg hp, alookup, if_neg hp', alookup, if_neg hp']
        exact ih

theorem alookup_append_single_self {α β : Type} [DecidableEq α] {l : List (α × β)}
    {k : α} (v : β) (hnone : alookup k l = none) :
    alookup k (l ++ [(k, v)]) = some v := by
  induction l with
  | nil => simp [alookup]
  | cons p t ih =>
    rw [alookup] at hnone
    split at hnone
    · exact absurd hnone (by simp)
    · rename_i hp
      rw [List.cons_append, alookup, if_neg hp]
      exact ih hnone

theorem alookup_append_single_ne {α β : Type} [DecidableEq α] (l : List (α × β))
    {k k' : α} (v : β) (h : k' ≠ k) :
    alookup k' (l ++ [(k, v)]) = alookup k' l := by
  induction l with
  | nil => simp [alookup, Ne.symm h]
  | cons p t ih =>
    by_cases hp : p.1 = k' <;> rw [List.cons_append, alookup, alookup] <;>
      simp only [hp, if_pos, if_neg, not_false_iff, ih]

theorem alookup_dictInsert_self {α β : Type} [DecidableEq α] (l : List (α × β))
    (k : α) (v : β) : alookup k (dictInsert l k v) = some v := by
  unfold dictInsert
  split
  · exact alookup_map_replace_self v (by assumption)
  · exact alookup_append_single_self v ((alookup_eq_none_iff _ _).mpr (by assumption))

theorem alookup_dictInsert_ne {α β : Type} [DecidableEq α] (l : List (α × β))
    (k k' : α) (v : β) (h : k' ≠ k) :
    alookup k' (dictInsert l k v) = alookup k' l := by
  unfold dictInsert
  split
  · exact alookup_map_replace_ne l v h
  · exact alookup_append_single_ne l v h

theorem dictInsert_values_subset {α β : Type} [DecidableEq α] {l : List (α × β)}
    {k : α} {v w : β} (h : w ∈ (dictInsert l k v).map Prod.snd) :
    w ∈ l.map Prod.snd ∨ w = v := by
  unfold dictInsert at h
  split at h
  · rcases List.mem_map.mp h with ⟨q, hq, hqw⟩
    rcases List.mem_map.mp hq with ⟨p, hp, hpq⟩
    by_cases hk : p.1 = k
    · right
      rw [← hqw, ← hpq, if_pos hk]
    · left
      apply List.mem_map.mpr
      refine ⟨p, hp, ?_⟩
      rw [← hqw, ← hpq, if_neg hk]
  · rcases List.mem_map.mp h with ⟨q, hq, hqw⟩
    rcases List.mem_append.mp hq with hq1 | hq2
    · exact Or.inl (List.mem_map.mpr ⟨q, hq1, hqw⟩)
    · right
      simp only [List.mem_singleton] at hq2
      rw [← hqw, hq2]

/-! ## Name-resolver theorems (C1, C3, C10) -/

/-- No alias target of the repository's table is itself an alias key,
so the alias fallback redirects at most once. -/
theorem alias_target_no_alias :
    ∀ p ∈ WEAPON_ALIASES, alookup p.2 WEAPON_ALIASES = none := by decide

/-- For a name that is not an alias key, one unit of fuel suffices and
the result is steps 1-3 of the ordered strategy. -/
theorem find_weapon_icon_no_alias (fuel : Nat) (name : String)
    (defs : List (String × KilliconDefinition))
    (h : alookup name WEAPON_ALIASES = none) :
    find_weapon_icon WEAPON_MAPPINGS WEAPON_ALIASES (fuel + 1) name defs =
      some (specResolveSteps123 name defs) := by
  simp only [find_weapon_icon, specResolveSteps123]
  cases h1 : alookup ((alookup name WEAPON_MAPPINGS).getD name) defs
  · cases h2 : ["_kill", "death"].findSome?
        (fun sfx => alookup (((alookup name WEAPON_MAPPINGS).getD name) ++ sfx) defs)
    · cases h3 : defs.find? (fun p =>
          strContains p.1 ((alookup name WEAPON_MAPPINGS).getD name) ||
          strContains ((alookup name WEAPON_MAPPINGS).getD name) p.1)
      · simp [h1, h2, h3, h]
      · simp [h1, h2, h3]
    · simp [h1, h2]
  · simp [h1]

/-- With the repository's static tables, two units of fuel always
suffice and the source resolver computes exactly the spec's ordered
strategy with a single alias redirection. -/
theorem find_weapon_icon_eq_spec (fuel : Nat) (name : String)
    (defs : List (String × KilliconDefinition)) :
    find_weapon_icon WEAPON_MAPPINGS WEAPON_ALIASES (fuel + 2) name defs =
      some (specResolve name defs) := by
  show find_weapon_icon WEAPON_MAPPINGS WEAPON_ALIASES (fuel + 1 + 1) name defs = _
  rw [find_weapon_icon]
  simp only [specResolve, specResolveSteps123]
  cases h1 : alookup ((alookup name WEAPON_MAPPINGS).getD name) defs
  · cases h2 : ["_kill", "death"].findSome?
        (fun sfx => alookup (((alookup name WEAPON_MAPPINGS).getD name) ++ sfx) defs)
    · cases h3 : defs.find? (fun p =>
          strContains p.1 ((alookup name WEAPON_MAPPINGS).getD name) ||
          strContains ((alookup name WEAPON_MAPPINGS).getD name) p.1)
      · cases h4 : alookup name WEAPON_ALIASES
        · simp [h1, h2, h3, h4]
        · rename_i canonical
          have hc : alookup canonical WEAPON_ALIASES = none :=
            alias_target_no_alias (name, canonical) (mem_of_alookup_eq_some h4)
          simp only [h1, h2, h3, h4]
          rw [find_weapon_icon_no_alias fuel canonical defs hc]
          simp [specResolveSteps123]
      · simp [h1, h2, h3]
    · simp [h1, h2]
  · simp [h1]

/-- C1 counterexample: the claim says resolution on an alias cycle
returns NotFound thanks to a recursion-depth bound of about 8; in fact
the source has no depth guard at all, and on the cycle `A -> B -> A`
the call has still not returned after 9 or even 100 stack frames (it
exhausts any stack, a `RecursionError` in Python, and never produces
NotFound). -/
theorem find_weapon_icon_cycle_counterexample :
    find_weapon_icon [] [("A", "B"), ("B", "A")] 9 "A" [] = none ∧
    find_weapon_icon [] [("A", "B"), ("B", "A")] 100 "A" [] = none := by
  constructor <;> decide

/-- C1 (amended): the implementation has no recursion-depth bound.  On
a crafted alias cycle `A -> B -> A` resolution never returns, whatever
the stack budget; it terminates for every input under the repository's
actual `WEAPON_ALIASES` table, because no alias target is itself an
alias key, so redirection depth is at most one (two stack frames
always suffice). -/
theorem find_weapon_icon_termination :
    (∀ (fuel : Nat) (name : String) (defs : List (String × KilliconDefinition)),
      (find_weapon_icon WEAPON_MAPPINGS WEAPON_ALIASES (fuel + 2) name defs).isSome) ∧
    (∀ fuel : Nat, find_weapon_icon [] [("A", "B"), ("B", "A")] fuel "A" [] = none) := by
  constructor
  · intro fuel name defs
    rw [find_weapon_icon_eq_spec]
    rfl
  · have key : ∀ fuel : Nat,
        find_weapon_icon [] [("A", "B"), ("B", "A")] fuel "A" [] = none ∧
        find_weapon_icon [] [("A", "B"), ("B", "A")] fuel "B" [] = none := by
      intro fuel
      induction fuel with
      | zero => exact ⟨rfl, rfl⟩
      | succ f ih => exact ⟨ih.2, ih.1⟩
    exact fun fuel => (key fuel).1

/-- C3: the resolver first translates the external name through
`WEAPON_MAPPINGS` (identity if absent) and then returns the first hit
of: exact match, the ordered suffix list `['_kill', 'death']`, the
first definition in iteration order comparable by substring containment
in either direction, and finally the alias fallback on the original
name (`specResolve` spells out exactly this ordered strategy); in
particular resolving `world` against a `skull` definition returns the
`skull` definition. -/
theorem find_weapon_icon_ordered_strategy :
    (∀ (fuel : Nat) (name : String) (defs : List (String × KilliconDefinition)),
      find_weapon_icon WEAPON_MAPPINGS WEAPON_ALIASES (fuel + 2) name defs =
        some (specResolve name defs)) ∧
    find_weapon_icon WEAPON_MAPPINGS WEAPON_ALIASES 2 "world"
      [("skull", ⟨"skull", "d_images", 0, 0, 32, 32⟩)] =
      some (some ⟨"skull", "d_images", 0, 0, 32, 32⟩) :=
  ⟨find_weapon_icon_eq_spec, by decide⟩

/-- Substring containment with the empty pattern always succeeds
(Python `'' in s` is `True`). -/
theorem strContains_empty (s : String) : strContains s "" = true := by
  show listContains [] s.toList = true
  cases s.toList <;> simp [listContains, List.isPrefixOf]

/-- C10: if the definitions table is non-empty and has none of the keys
`""`, `"_kill"` and `"death"`, then resolving the empty name returns
the first definition in iteration order (the empty mapped name falls
through steps 1-2 and matches the first definition by substring
containment), never NotFound. -/
theorem find_weapon_icon_empty_name (fuel : Nat) (d : String × KilliconDefinition)
    (rest : List (String × KilliconDefinition))
    (h1 : "" ∉ ((d :: rest).map Prod.fst))
    (h2 : "_kill" ∉ ((d :: rest).map Prod.fst))
    (h3 : "death" ∉ ((d :: rest).map Prod.fst)) :
    find_weapon_icon WEAPON_MAPPINGS WEAPON_ALIASES (fuel + 1) "" (d :: rest) =
      some (some d.2) := by
  have hm : alookup "" WEAPON_MAPPINGS = none := by decide
  have e1 : alookup "" (d :: rest) = none := (alookup_eq_none_iff _ _).mpr h1
  have e2 : alookup "_kill" (d :: rest) = none := (alookup_eq_none_iff _ _).mpr h2
  have e3 : alookup "death" (d :: rest) = none := (alookup_eq_none_iff _ _).mpr h3
  simp only [find_weapon_icon, hm, Option.getD_none]
  have ha : ("" : String) ++ "_kill" = "_kill" := rfl
  have hb : ("" : String) ++ "death" = "death" := rfl
  rw [List.findSome?]
  simp only [ha, hb, e1, e2, e3, List.findSome?]
  rw [List.find?_cons_of_pos _ (by simp [strContains_empty])]

/-- Witness for C10 at a concrete one-entry table. -/
theorem find_weapon_icon_empty_name_witness :
    ("" ∉ ([("skull", (⟨"skull", "d_images", 0, 0, 32, 32⟩ : KilliconDefinition))].map
        Prod.fst)) ∧
    ("_kill" ∉ ([("skull", (⟨"skull", "d_images", 0, 0, 32, 32⟩ : KilliconDefinition))].map
        Prod.fst)) ∧
    ("death" ∉ ([("skull", (⟨"skull", "d_images", 0, 0, 32, 32⟩ : KilliconDefinition))].map
        Prod.fst)) ∧
    find_weapon_icon WEAPON_MAPPINGS WEAPON_ALIASES 1 ""
      [("skull", ⟨"skull", "d_images", 0, 0, 32, 32⟩)] =
      some (some ⟨"skull", "d_images", 0, 0, 32, 32⟩) :=
  ⟨by decide, by decide, by decide,
    find_weapon_icon_empty_name 0 ("skull", ⟨"skull", "d_images", 0, 0, 32, 32⟩) []
      (by decide) (by decide) (by decide)⟩

/-! ## Sprite-packer theorems (C2, C7, C8) -/

/-- Two placement rects have intersecting (open) bounding boxes. -/
def rectsOverlap (a b : Rect) : Prop :=
  a.x < b.x + b.w ∧ b.x < a.x + a.w ∧ a.y < b.y + b.h ∧ b.y < a.y + a.h

/-- The invariant carried through the packing fold: every recorded rect
fits inside `maxWidth` horizontally and below `currentY + rowHeight`
vertically; rects of the current row (those at `y = currentY`) are no
taller than `rowHeight` and lie left of `currentX` (unless degenerate);
rects of closed rows end at or above `currentY`; and all recorded rects
are pairwise non-overlapping. -/
def PackInv (s : PackState) : Prop :=
  (∀ p ∈ s.positions, p.2.x + p.2.w ≤ s.maxWidth) ∧
  (∀ p ∈ s.positions, p.2.y + p.2.h ≤ s.currentY + s.rowHeight) ∧
  (∀ p ∈ s.positions, p.2.y ≤ s.currentY) ∧
  (∀ p ∈ s.positions, p.2.y = s.currentY →
    p.2.h ≤ s.rowHeight ∧ (p.2.h = 0 ∨ p.2.x + p.2.w ≤ s.currentX)) ∧
  (∀ p ∈ s.positions, p.2.y ≠ s.currentY → p.2.y + p.2.h ≤ s.currentY) ∧
  List.Pairwise (fun a b => ¬ rectsOverlap a.2 b.2) s.positions

theorem packInv_init : PackInv ⟨0, 0, 0, 0, []⟩ := by
  refine ⟨?_, ?_, ?_, ?_, ?_, List.Pairwise.nil⟩ <;> intro p hp <;> simp at hp

theorem packStep_inv (s : PackState) (it : String × Img) (h : PackInv s) :
    PackInv (packStep s it) := by
  obtain ⟨hA, hB, hC, hD, hE, hP⟩ := h
  unfold packStep PackInv
  by_cases hbrk : 512 < s.currentX + it.2.width ∧ 0 < s.currentX
  · simp only [if_pos hbrk]
    refine ⟨?_, ?_, ?_, ?_, ?_, ?_⟩
    · intro p hp
      rcases List.mem_append.mp hp with hm | hm
      · have := hA p hm
        try simp only []
        omega
      · simp only [List.mem_singleton] at hm
        subst hm
        try simp only []
        omega
    · intro p hp
      rcases List.mem_append.mp hp with hm | hm
      · have := hB p hm
        try simp only []
        omega
      · simp only [List.mem_singleton] at hm
        subst hm
        try simp only []
        omega
    · intro p hp
      rcases List.mem_append.mp hp with hm | hm
      · have := hC p hm
        try simp only []
        omega
      · simp only [List.mem_singleton] at hm
        subst hm
        try simp only []
        omega
    · intro p hp hy
      rcases List.mem_append.mp hp with hm | hm
      · have hc := hC p hm
        have hb := hB p hm
        try simp only [] at hy
        have h0 : s.rowHeight = 0 := by omega
        have hyy : p.2.y = s.currentY := by omega
        have hd := hD p hm hyy
        refine ⟨by omega, Or.inl (by omega)⟩
      · simp only [List.mem_singleton] at hm
        subst hm
        try simp only []
        omega
    · intro p hp hy
      rcases List.mem_append.mp hp with hm | hm
      · have hc := hC p hm
        have hb := hB p hm
        by_cases hyc : p.2.y = s.currentY
        · have hd := hD p hm hyc
          try simp only []
          omega
        · have he := hE p hm hyc
          try simp only []
          omega
      · simp only [List.mem_singleton] at hm
        subst hm
        try simp only [] at hy
        omega
    · rw [List.pairwise_append]
      refine ⟨hP, List.pairwise_singleton _ _, ?_⟩
      intro a ha b hb
      simp only [List.mem_singleton] at hb
      subst hb
      unfold rectsOverlap
      rintro ⟨o1, o2, o3, o4⟩
      have hb1 := hB a ha
      try simp only [] at o1 o2 o3 o4
      omega
  · simp only [if_neg hbrk]
    refine ⟨?_, ?_, ?_, ?_, ?_, ?_⟩
    · intro p hp
      rcases List.mem_append.mp hp with hm | hm
      · have := hA p hm
        try simp only []
        omega
      · simp only [List.mem_singleton] at hm
        subst hm
        try simp only []
        omega
    · intro p hp
      rcases List.mem_append.mp hp with hm | hm
      · have := hB p hm
        try simp only []
        omega
      · simp only [List.mem_singleton] at hm
        subst hm
        try simp only []
        omega
    · intro p hp
      rcases List.mem_append.mp hp with hm | hm
      · have := hC p hm
        try simp only []
        omega
      · simp only [List.mem_singleton] at hm
        subst hm
        try simp only []
        omega
    · intro p hp hy
      rcases List.mem_append.mp hp with hm | hm
      · try simp only [] at hy
        have hd := hD p hm hy
        try simp only []
        omega
      · simp only [List.mem_singleton] at hm
        subst hm
        try simp only []
        omega
    · intro p hp hy
      rcases List.mem_append.mp hp with hm | hm
      · try simp only [] at hy
        have he := hE p hm hy
        try simp only []
        omega
      · simp only [List.mem_singleton] at hm
        subst hm
        try simp only [] at hy
        omega
    · rw [List.pairwise_append]
      refine ⟨hP, List.pairwise_singleton _ _, ?_⟩
      intro a ha b hb
      simp only [List.mem_singleton] at hb
      subst hb
      unfold rectsOverlap
      rintro ⟨o1, o2, o3, o4⟩
      try simp only [] at o1 o2 o3 o4
      have hc := hC a ha
      by_cases hyc : a.2.y = s.currentY
      · have hd := hD a ha hyc
        rcases hd.2 with h0 | hxw <;> omega
      · have he := hE a ha hyc
        omega

theorem packFold_inv (l : List (String × Img)) (s : PackState) (h : PackInv s) :
    PackInv (l.foldl packStep s) := by
  induction l generalizing s with
  | nil => exact h
  | cons a t ih => exact ih _ (packStep_inv s a h)

theorem packFold_positions_names (l : List (String × Img)) (s : PackState) :
    ((l.foldl packStep s).positions).map Prod.fst =
      s.positions.map Prod.fst ++ l.map Prod.fst := by
  induction l generalizing s with
  | nil => simp
  | cons a t ih =>
    rw [List.foldl_cons, ih]
    simp [packStep]

theorem aliasFold_values (al : List (String × String)) (cur ps : List (String × Rect))
    (hsub : ∀ r ∈ cur.map Prod.snd, r ∈ ps.map Prod.snd) :
    ∀ r ∈ (al.foldl aliasStep cur).map Prod.snd, r ∈ ps.map Prod.snd := by
  induction al generalizing cur with
  | nil => exact hsub
  | cons a t ih =>
    rw [List.foldl_cons]
    apply ih
    unfold aliasStep
    cases hl : alookup a.2 cur with
    | none => exact hsub
    | some r =>
      intro w hw
      rcases dictInsert_values_subset hw with h1 | h1
      · exact hsub w h1
      · subst h1
        exact hsub w (alookup_mem_values hl)

theorem aliasFold_lookup_of_not_key (al : List (String × String))
    (cur : List (String × Rect)) (k : String) (hk : k ∉ al.map Prod.fst) :
    alookup k (al.foldl aliasStep cur) = alookup k cur := by
  induction al generalizing cur with
  | nil => rfl
  | cons a t ih =>
    rw [List.map_cons, List.mem_cons] at hk
    push_neg at hk
    rw [List.foldl_cons, ih _ hk.2]
    unfold aliasStep
    cases hl : alookup a.2 cur with
    | none => rfl
    | some r => exact alookup_dictInsert_ne cur a.1 k r hk.1

theorem aliasFold_canonical_some (al : List (String × String))
    (cur : List (String × Rect))
    (hkeys : (al.map Prod.fst).Nodup)
    (hvk : ∀ p ∈ al, p.2 ∉ al.map Prod.fst)
    (al0 can0 : String) (hmem : (al0, can0) ∈ al) (r : Rect)
    (hcan : alookup can0 cur = some r) :
    alookup al0 (al.foldl aliasStep cur) = some r := by
  induction al generalizing cur with
  | nil => simp at hmem
  | cons a t ih =>
    rw [List.map_cons, List.nodup_cons] at hkeys
    rcases List.mem_cons.mp hmem with h1 | h1
    · subst h1
      rw [List.foldl_cons]
      have hstep : aliasStep cur (al0, can0) = dictInsert cur al0 r := by
        unfold aliasStep
        rw [hcan]
      rw [hstep, aliasFold_lookup_of_not_key t _ al0 hkeys.1]
      exact alookup_dictInsert_self cur al0 r
    · rw [List.foldl_cons]
      have hne : can0 ≠ a.1 := by
        intro he
        apply hvk (al0, can0) hmem
        rw [List.map_cons]
        exact List.mem_cons.mpr (Or.inl he)
      have hcan' : alookup can0 (aliasStep cur a) = some r := by
        unfold aliasStep
        cases hl : alookup a.2 cur with
        | none => exact hcan
        | some r' => rw [alookup_dictInsert_ne cur a.1 can0 r' hne]; exact hcan
      apply ih _ hkeys.2 _ h1 hcan'
      intro p hp
      intro hmemk
      apply hvk p (List.mem_cons_of_mem a hp)
      rw [List.map_cons]
      exact List.mem_cons_of_mem _ hmemk

theorem aliasFold_no_entry (al : List (String × String))
    (cur : List (String × Rect))
    (hkeys : (al.map Prod.fst).Nodup)
    (hvk : ∀ p ∈ al, p.2 ∉ al.map Prod.fst)
    (al0 can0 : String) (hmem : (al0, can0) ∈ al)
    (hcan : alookup can0 cur = none) (hal : alookup al0 cur = none) :
    alookup al0 (al.foldl aliasStep cur) = none := by
  induction al generalizing cur with
  | nil => simp at hmem
  | cons a t ih =>
    rw [List.map_cons, List.nodup_cons] at hkeys
    rcases List.mem_cons.mp hmem with h1 | h1
    · subst h1
      rw [List.foldl_cons]
      have hstep : aliasStep cur (al0, can0) = cur := by
        unfold aliasStep
        rw [hcan]
      rw [hstep, aliasFold_lookup_of_not_key t _ al0 hkeys.1]
      exact hal
    · rw [List.foldl_cons]
      have hal0mem : al0 ∈ t.map Prod.fst :=
        List.mem_map.mpr ⟨(al0, can0), h1, rfl⟩
      have hne0 : al0 ≠ a.1 := by
        intro he
        exact hkeys.1 (he ▸ hal0mem)
      have hnec : can0 ≠ a.1 := by
        intro he
        apply hvk (al0, can0) hmem
        rw [List.map_cons]
        exact List.mem_cons.mpr (Or.inl he)
      have hcan' : alookup can0 (aliasStep cur a) = none := by
        unfold aliasStep
        cases hl : alookup a.2 cur with
        | none => exact hcan
        | some r' => rw [alookup_dictInsert_ne cur a.1 can0 r' hnec]; exact hcan
      have hal' : alookup al0 (aliasStep cur a) = none := by
        unfold aliasStep
        cases hl : alookup a.2 cur with
        | none => exact hal
        | some r' => rw [alookup_dictInsert_ne cur a.1 al0 r' hne0]; exact hal
      apply ih _ hkeys.2 _ h1 hcan' hal'
      intro p hp hmemk
      apply hvk p (List.mem_cons_of_mem a hp)
      rw [List.map_cons]
      exact List.mem_cons_of_mem _ hmemk

/-- C2: for every input, every rect of the final positions table (alias
entries included) lies inside the composite dimensions returned by
`pack_sprites`, and the recorded placement rects of the packed (non-
alias) names are pairwise non-overlapping. -/
theorem pack_sprites_bounds_and_disjoint (icons : List (String × Img))
    (aliases : List (String × String)) :
    (∀ p ∈ (pack_sprites icons aliases).positions,
      p.2.x + p.2.w ≤ (pack_sprites icons aliases).width ∧
      p.2.y + p.2.h ≤ (pack_sprites icons aliases).height) ∧
    List.Pairwise (fun a b => ¬ rectsOverlap a.2 b.2)
      (pack_sprites icons aliases).pastes := by
  unfold pack_sprites
  split
  · constructor
    · intro p hp
      simp at hp
    · exact List.Pairwise.nil
  · have hinv := packFold_inv (sortIcons icons) ⟨0, 0, 0, 0, []⟩ packInv_init
    obtain ⟨hA, hB, _, _, _, hP⟩ := hinv
    refine ⟨?_, hP⟩
    intro p hp
    have hval : p.2 ∈ (addAliasPositions aliases
        ((sortIcons icons).foldl packStep ⟨0, 0, 0, 0, []⟩).positions).map Prod.snd :=
      List.mem_map_of_mem Prod.snd hp
    have hval2 := aliasFold_values aliases _ _ (fun r hr => hr) p.2 hval
    rcases List.mem_map.mp hval2 with ⟨q, hq, hq2⟩
    have h1 := hA q hq
    have h2 := hB q hq
    rw [hq2] at h1 h2
    exact ⟨h1, h2⟩

/-- C7: icons are packed in stable height-descending order; a row break
(placement at `x = 0`, `y = currentY + rowHeight`, with the cursors
reset) happens exactly when placing at `currentX` would exceed the
512 px target and the row is non-empty, otherwise the icon is placed at
the cursor; and the packing example from the spec: two 300-wide images
of heights 40 and 20 land at `(0,0)` and `(0,40)` in a 300 x 60
composite. -/
theorem pack_sprites_row_layout :
    (∀ icons : List (String × Img),
      (sortIcons icons).Pairwise (fun a b => b.2.height ≤ a.2.height)) ∧
    (∀ (s : PackState) (name : String) (img : Img),
      512 < s.currentX + img.width ∧ 0 < s.currentX →
        (packStep s (name, img)).positions =
          s.positions ++ [(name, ⟨0, s.currentY + s.rowHeight, img.width, img.height⟩)] ∧
        (packStep s (name, img)).currentX = img.width ∧
        (packStep s (name, img)).rowHeight = img.height) ∧
    (∀ (s : PackState) (name : String) (img : Img),
      ¬ (512 < s.currentX + img.width ∧ 0 < s.currentX) →
        (packStep s (name, img)).positions =
          s.positions ++ [(name, ⟨s.currentX, s.currentY, img.width, img.height⟩)] ∧
        (packStep s (name, img)).currentX = s.currentX + img.width ∧
        (packStep s (name, img)).currentY = s.currentY) ∧
    pack_sprites [("a", ⟨300, 40⟩), ("b", ⟨300, 20⟩)] [] =
      ⟨300, 60, [("a", ⟨0, 0, 300, 40⟩), ("b", ⟨0, 40, 300, 20⟩)],
        [("a", ⟨0, 0, 300, 40⟩), ("b", ⟨0, 40, 300, 20⟩)]⟩ := by
  refine ⟨?_, ?_, ?_, by decide⟩
  · intro icons
    haveI : IsTotal (String × Img) (fun a b => b.2.height ≤ a.2.height) :=
      ⟨fun a b => le_total b.2.height a.2.height⟩
    haveI : IsTrans (String × Img) (fun a b => b.2.height ≤ a.2.height) :=
      ⟨fun _ _ _ hab hbc => le_trans hbc hab⟩
    exact List.sorted_insertionSort _ icons
  · intro s name img hbrk
    refine ⟨?_, ?_, ?_⟩ <;> simp [packStep, hbrk]
  · intro s name img hbrk
    refine ⟨?_, ?_, ?_⟩ <;> simp [packStep, hbrk]

/-- Witness for the conditional parts of C7 at a concrete cursor state:
a 300-wide icon arriving with the cursor at `x = 300` (row height 40)
breaks to the new row and is placed at `(0, 40)`. -/
theorem pack_sprites_row_layout_witness :
    (512 < 300 + 300 ∧ 0 < 300) ∧
    ((packStep ⟨300, 0, 40, 300, []⟩ ("b", ⟨300, 20⟩)).positions =
      [("b", ⟨0, 40, 300, 20⟩)] ∧
     (packStep ⟨300, 0, 40, 300, []⟩ ("b", ⟨300, 20⟩)).currentX = 300 ∧
     (packStep ⟨300, 0, 40, 300, []⟩ ("b", ⟨300, 20⟩)).rowHeight = 20) :=
  ⟨⟨by decide, by decide⟩,
    pack_sprites_row_layout.2.1 ⟨300, 0, 40, 300, []⟩ "b" ⟨300, 20⟩
      ⟨by decide, by decide⟩⟩

set_option maxHeartbeats 1000000 in
/-- C8: for every alias pair of the repository's table whose canonical
name received a placement, the final positions table maps the alias to
the canonical name's exact rect; an alias whose canonical name has no
placement (and which was not itself packed) gets no entry; and the
paste operations performed on the composite are exactly one per input
icon — never one for an alias. -/
theorem pack_sprites_alias_entries (icons : List (String × Img)) :
    (∀ al can r, (al, can) ∈ WEAPON_ALIASES →
      alookup can (pack_sprites icons WEAPON_ALIASES).pastes = some r →
      alookup al (pack_sprites icons WEAPON_ALIASES).positions = some r) ∧
    (∀ al can, (al, can) ∈ WEAPON_ALIASES →
      alookup can (pack_sprites icons WEAPON_ALIASES).pastes = none →
      alookup al (pack_sprites icons WEAPON_ALIASES).pastes = none →
      alookup al (pack_sprites icons WEAPON_ALIASES).positions = none) ∧
    ((pack_sprites icons WEAPON_ALIASES).pastes.map Prod.fst).Perm
      (icons.map Prod.fst) := by
  have hkeys : (WEAPON_ALIASES.map Prod.fst).Nodup := by decide
  have hvk : ∀ p ∈ WEAPON_ALIASES, p.2 ∉ WEAPON_ALIASES.map Prod.fst := by decide
  unfold pack_sprites
  split
  · rename_i hemp
    refine ⟨?_, ?_, ?_⟩
    · intro al can r _ hcan
      rw [show (alookup can ([] : List (String × Rect)) = some r) = False from
        by simp [alookup]] at hcan
      exact absurd hcan (by simp)
    · intro al can _ _ _
      rfl
    · have : icons = [] := List.isEmpty_iff.mp hemp
      subst this
      rfl
  · refine ⟨?_, ?_, ?_⟩
    · intro al can r hmem hcan
      exact aliasFold_canonical_some WEAPON_ALIASES _ hkeys hvk al can hmem r hcan
    · intro al can hmem hcan hal
      exact aliasFold_no_entry WEAPON_ALIASES _ hkeys hvk al can hmem hcan hal
    · rw [packFold_positions_names]
      simp only [List.map_nil, List.nil_append]
      exact (List.perm_insertionSort _ icons).map Prod.fst

/-- Witness for C8: packing a lone `sniperrifle` icon yields an
`awper_hand` entry with the identical rect. -/
theorem pack_sprites_alias_entries_witness :
    (("awper_hand", "sniperrifle") ∈ WEAPON_ALIASES) ∧
    alookup "sniperrifle"
      (pack_sprites [("sniperrifle", ⟨32, 32⟩)] WEAPON_ALIASES).pastes =
      some ⟨0, 0, 32, 32⟩ ∧
    alookup "awper_hand"
      (pack_sprites [("sniperrifle", ⟨32, 32⟩)] WEAPON_ALIASES).positions =
      some ⟨0, 0, 32, 32⟩ :=
  ⟨by decide, by decide,
    (pack_sprites_alias_entries [("sniperrifle", ⟨32, 32⟩)]).1
      "awper_hand" "sniperrifle" ⟨0, 0, 32, 32⟩ (by decide) (by decide)⟩

/-! ## Code-point string order lemmas -/

theorem listLt_irrefl (cs : List Char) : listLt cs cs = false := by
  induction cs with
  | nil => rfl
  | cons a t ih => simp [listLt, ih]

theorem listLt_trans {a b c : List Char} (h1 : listLt a b = true)
    (h2 : listLt b c = true) : listLt a c = true := by
  induction a generalizing b c with
  | nil =>
    cases b with
    | nil => exact absurd h1 (by simp [listLt])
    | cons b0 bs =>
      cases c with
      | nil => exact absurd h2 (by simp [listLt])
      | cons c0 cs => simp [listLt]
  | cons a0 as ih =>
    cases b with
    | nil => exact absurd h1 (by simp [listLt])
    | cons b0 bs =>
      cases c with
      | nil => exact absurd h2 (by simp [listLt])
      | cons c0 cs =>
        rw [listLt] at h1 h2 ⊢
        by_cases hab : a0 = b0
        · by_cases hbc : b0 = c0
          · rw [if_pos hab] at h1
            rw [if_pos hbc] at h2
            rw [if_pos (hab.trans hbc)]
            exact ih h1 h2
          · rw [if_pos hab] at h1
            rw [if_neg hbc] at h2
            have hac : a0 ≠ c0 := by rw [hab]; exact hbc
            rw [if_neg hac]
            rw [hab]
            exact h2
        · by_cases hbc : b0 = c0
          · rw [if_neg hab] at h1
            have hac : a0 ≠ c0 := by rw [← hbc]; exact hab
            rw [if_neg hac, ← hbc]
            exact h1
          · rw [if_neg hab] at h1
            rw [if_neg hbc] at h2
            have hn1 : a0.toNat < b0.toNat := by exact_mod_cast of_decide_eq_true h1
            have hn2 : b0.toNat < c0.toNat := by exact_mod_cast of_decide_eq_true h2
            have hac : a0 ≠ c0 := by
              intro he
              rw [he] at hn1
              omega
            rw [if_neg hac]
            exact decide_eq_true (by omega)

theorem listLt_trichotomy (a b : List Char) :
    listLt a b = true ∨ a = b ∨ listLt b a = true := by
  induction a generalizing b with
  | nil =>
    cases b with
    | nil => exact Or.inr (Or.inl rfl)
    | cons b0 bs => exact Or.inl (by simp [listLt])
  | cons a0 as ih =>
    cases b with
    | nil => exact Or.inr (Or.inr (by simp [listLt]))
    | cons b0 bs =>
      by_cases hab : a0 = b0
      · subst hab
        rcases ih bs with h | h | h
        · exact Or.inl (by rw [listLt, if_pos rfl]; exact h)
        · exact Or.inr (Or.inl (by rw [h]))
        · exact Or.inr (Or.inr (by rw [listLt, if_pos rfl]; exact h))
      · rcases Nat.lt_trichotomy a0.toNat b0.toNat with h | h | h
        · exact Or.inl (by rw [listLt, if_neg hab]; exact decide_eq_true h)
        · exact absurd (Char.ext (UInt32.ext h)) hab
        · refine Or.inr (Or.inr ?_)
          rw [listLt, if_neg (fun he => hab he.symm)]
          exact decide_eq_true h

theorem pyStrLe_total (a b : String) : pyStrLe a b = true ∨ pyStrLe b a = true := by
  unfold pyStrLe strLtb
  cases hba : listLt b.toList a.toList
  · exact Or.inl (by simp)
  · cases hab : listLt a.toList b.toList
    · exact Or.inr (by simp)
    · have := listLt_trans hab hba
      rw [listLt_irrefl] at this
      exact absurd this (by simp)

theorem pyStrLe_trans {a b c : String} (h1 : pyStrLe a b = true)
    (h2 : pyStrLe b c = true) : pyStrLe a c = true := by
  unfold pyStrLe strLtb at h1 h2 ⊢
  rw [Bool.not_eq_true', Bool.eq_false_iff] at h1 h2 ⊢
  intro hca
  rcases listLt_trichotomy b.toList c.toList with h | h | h
  · exact h1 (listLt_trans h hca)
  · exact h1 (h ▸ hca)
  · exact h2 h

theorem toList_inj {a b : String} (h : a.toList = b.toList) : a = b := by
  cases a
  cases b
  exact congrArg String.mk (by simpa [String.toList] using h)

theorem strLtb_of_le_of_ne {a b : String} (hle : pyStrLe a b = true)
    (hne : a ≠ b) : strLtb a b = true := by
  unfold pyStrLe strLtb at hle
  unfold strLtb
  rw [Bool.not_eq_true', Bool.eq_false_iff] at hle
  rcases listLt_trichotomy a.toList b.toList with h | h | h
  · exact h
  · exact absurd (toList_inj h) hne
  · exact absurd h hle

/-! ## Stylesheet-emitter theorems (C6, C9) -/

theorem alookup_of_mem_nodup {α β : Type} [DecidableEq α] {l : List (α × β)}
    (hnodup : (l.map Prod.fst).Nodup) {k : α} {v : β} (hmem : (k, v) ∈ l) :
    alookup k l = some v := by
  induction l with
  | nil => simp at hmem
  | cons p t ih =>
    rw [List.map_cons, List.nodup_cons] at hnodup
    rcases List.mem_cons.mp hmem with h1 | h1
    · subst h1
      simp [alookup]
    · have hp : p.1 ≠ k := by
        intro he
        exact hnodup.1 (he ▸ List.mem_map.mpr ⟨(k, v), h1, rfl⟩)
      rw [alookup, if_neg hp]
      exact ih hnodup.2 h1

theorem alookup_filter {α β : Type} [DecidableEq α] (p : α × β → Bool)
    (l : List (α × β)) (hnodup : (l.map Prod.fst).Nodup) (k : α) :
    alookup k (l.filter p) =
      match alookup k l with
      | some v => if p (k, v) then some v else none
      | none => none := by
  induction l with
  | nil => simp [alookup]
  | cons q t ih =>
    rw [List.map_cons, List.nodup_cons] at hnodup
    by_cases hq : q.1 = k
    · have hqeq : q = (k, q.2) := by
        obtain ⟨q1, q2⟩ := q
        cases hq
        rfl
      rw [alookup, if_pos hq]
      by_cases hp : p q
      · rw [List.filter_cons_of_pos hp, alookup, if_pos hq]
        rw [hqeq] at hp
        simp [hp]
      · rw [List.filter_cons_of_neg hp]
        have hknot : k ∉ (t.map Prod.fst) := hq ▸ hnodup.1
        have h1 : alookup k (t.filter p) = none := by
          rw [alookup_eq_none_iff]
          intro hmem
          apply hknot
          rcases List.mem_map.mp hmem with ⟨w, hw, hwk⟩
          exact List.mem_map.mpr ⟨w, List.mem_of_mem_filter hw, hwk⟩
        rw [h1]
        rw [hqeq] at hp
        simp only [Bool.not_eq_true] at hp
        simp [hp]
    · rw [alookup, if_neg hq]
      by_cases hp : p q
      · rw [List.filter_cons_of_pos hp, alookup, if_neg hq]
        exact ih hnodup.2
      · rw [List.filter_cons_of_neg hp]
        exact ih hnodup.2

theorem weapon_mappings_keys_nodup : (WEAPON_MAPPINGS.map Prod.fst).Nodup := by decide

/-- Looking a name up in the reverse-mapping table: its `WEAPON_MAPPINGS`
target if that target has a position, nothing otherwise. -/
theorem reverseMappings_alookup (positions : List (String × Rect)) (name : String) :
    alookup name (reverseMappings positions) =
      match alookup name WEAPON_MAPPINGS with
      | some m => if (alookup m positions).isSome then some m else none
      | none => none := by
  unfold reverseMappings
  rw [alookup_filter _ _ weapon_mappings_keys_nodup]
  cases hm : alookup name WEAPON_MAPPINGS with
  | none => rfl
  | some m => rfl

theorem cssRuleFor_name {positions : List (String × Rect)} {n : String}
    {rule : CssRule} (h : cssRuleFor positions n = some rule) : rule.name = n := by
  unfold cssRuleFor at h
  cases h1 : alookup n (reverseMappings positions) with
  | some m =>
    rw [h1] at h
    cases h2 : alookup m positions with
    | none => simp [h2] at h
    | some r =>
      simp only [h2, Option.map_some] at h
      rw [← Option.some_inj.mp h]
  | none =>
    rw [h1] at h
    cases h2 : alookup n positions with
    | none => simp [h2] at h
    | some r =>
      simp only [h2, Option.map_some] at h
      rw [← Option.some_inj.mp h]

theorem cssRuleFor_mapped (positions : List (String × Rect)) (name m : String)
    (r : Rect) (hm : alookup name WEAPON_MAPPINGS = some m)
    (hr : alookup m positions = some r) :
    cssRuleFor positions name =
      some ⟨name, r.w, r.h, -(r.x : Int), -(r.y : Int)⟩ := by
  unfold cssRuleFor
  rw [reverseMappings_alookup]
  simp [hm, hr]

theorem cssRuleFor_isSome (positions : List (String × Rect)) (name : String)
    (hmem : name ∈ positions.map Prod.fst ∨
      name ∈ (reverseMappings positions).map Prod.fst) :
    (cssRuleFor positions name).isSome := by
  unfold cssRuleFor
  cases h1 : alookup name (reverseMappings positions) with
  | some m =>
    have hp := mem_of_alookup_eq_some h1
    unfold reverseMappings at hp
    have hpred := (List.mem_filter.mp hp).2
    cases h2 : alookup m positions with
    | none => rw [h2] at hpred; exact absurd hpred (by simp)
    | some r => simp [h2]
  | none =>
    rcases hmem with hmem | hmem
    · cases h2 : alookup name positions with
      | none =>
        rw [alookup_eq_none_iff] at h2
        exact absurd hmem h2
      | some r => simp [h2]
    · rw [alookup_eq_none_iff] at h1
      exact absurd hmem h1

theorem filterMap_cssRuleFor_names (positions : List (String × Rect))
    (ns : List String) (hall : ∀ n ∈ ns, (cssRuleFor positions n).isSome) :
    (ns.filterMap (cssRuleFor positions)).map CssRule.name = ns := by
  induction ns with
  | nil => rfl
  | cons n t ih =>
    cases h : cssRuleFor positions n with
    | none =>
      have := hall n (List.mem_cons_self _ _)
      rw [h] at this
      exact absurd this (by simp)
    | some rule =>
      simp only [List.filterMap_cons, h, List.map_cons, cssRuleFor_name h,
        ih (fun m hm => hall m (List.mem_cons_of_mem _ hm))]

theorem mem_cssNames_iff (positions : List (String × Rect)) (name : String) :
    name ∈ cssNames positions ↔
      name ∈ positions.map Prod.fst ∨
      name ∈ (reverseMappings positions).map Prod.fst := by
  unfold cssNames
  rw [(List.perm_insertionSort _ _).mem_iff, List.mem_dedup, List.mem_append]

theorem mem_reverse_keys_iff (positions : List (String × Rect)) (name : String) :
    name ∈ (reverseMappings positions).map Prod.fst ↔
      ∃ m, alookup name WEAPON_MAPPINGS = some m ∧ m ∈ positions.map Prod.fst := by
  constructor
  · intro h
    rcases List.mem_map.mp h with ⟨p, hp, hpn⟩
    unfold reverseMappings at hp
    have hmm := (List.mem_filter.mp hp).1
    have hpred := (List.mem_filter.mp hp).2
    refine ⟨p.2, ?_, ?_⟩
    · rw [← hpn]
      exact alookup_of_mem_nodup weapon_mappings_keys_nodup
        (by rw [show (p.1, p.2) = p from rfl]; exact hmm)
    · rw [← alookup_isSome_iff]
      exact hpred
  · rintro ⟨m, hm, hmem⟩
    apply List.mem_map.mpr
    refine ⟨(name, m), ?_, rfl⟩
    unfold reverseMappings
    apply List.mem_filter.mpr
    refine ⟨mem_of_alookup_eq_some hm, ?_⟩
    rw [alookup_isSome_iff]
    exact hmem

theorem cssNames_nodup (positions : List (String × Rect)) :
    (cssNames positions).Nodup := by
  unfold cssNames
  rw [(List.perm_insertionSort _ _).nodup_iff]
  exact List.nodup_dedup _

theorem cssNames_sorted (positions : List (String × Rect)) :
    (cssNames positions).Pairwise (fun a b => pyStrLe a b = true) := by
  unfold cssNames
  haveI : IsTotal String (fun a b => pyStrLe a b = true) := ⟨pyStrLe_total⟩
  haveI : IsTrans String (fun a b => pyStrLe a b = true) :=
    ⟨fun _ _ _ => pyStrLe_trans⟩
  exact List.sorted_insertionSort _ _

theorem generate_css_names (positions : List (String × Rect)) :
    (generate_css positions).map CssRule.name = cssNames positions := by
  unfold generate_css
  apply filterMap_cssRuleFor_names
  intro n hn
  exact cssRuleFor_isSome positions n ((mem_cssNames_iff positions n).mp hn)

/-- C6: `generate_css` emits exactly one rule per name of
`positions.keys() | (externalName : Mappings[externalName] placed)`,
in strictly ascending name order; any rule whose name has a placed
`WEAPON_MAPPINGS` target declares that target's rect (which covers
names present only via the mapping table); and every rule declares the
pixel width and height of some placed rect together with the negation
of its x/y offsets. -/
theorem generate_css_contract (positions : List (String × Rect)) :
    ((generate_css positions).map CssRule.name).Pairwise
      (fun a b => strLtb a b = true) ∧
    (∀ name, name ∈ (generate_css positions).map CssRule.name ↔
      (name ∈ positions.map Prod.fst ∨
       ∃ m, alookup name WEAPON_MAPPINGS = some m ∧
         m ∈ positions.map Prod.fst)) ∧
    (∀ rule ∈ generate_css positions, ∀ m r,
      alookup rule.name WEAPON_MAPPINGS = some m →
      alookup m positions = some r →
      rule.width = r.w ∧ rule.height = r.h ∧
      rule.bgX = -(r.x : Int) ∧ rule.bgY = -(r.y : Int)) ∧
    (∀ rule ∈ generate_css positions, ∃ r ∈ positions.map Prod.snd,
      rule.width = r.w ∧ rule.height = r.h ∧
      rule.bgX = -(r.x : Int) ∧ rule.bgY = -(r.y : Int)) := by
  refine ⟨?_, ?_, ?_, ?_⟩
  · rw [generate_css_names]
    have hs := cssNames_sorted positions
    have hn := cssNames_nodup positions
    exact (hs.and hn).imp (fun hab => strLtb_of_le_of_ne hab.1 hab.2)
  · intro name
    rw [generate_css_names]
    exact (mem_cssNames_iff _ _).trans
      (or_congr Iff.rfl (mem_reverse_keys_iff _ _))
  · intro rule hrule m r hm hr
    rcases List.mem_filterMap.mp hrule with ⟨n, _, hf⟩
    have hname := cssRuleFor_name hf
    rw [hname] at hm
    rw [cssRuleFor_mapped positions n m r hm hr] at hf
    injection hf with hf2
    rw [← hf2]
    exact ⟨rfl, rfl, rfl, rfl⟩
  · intro rule hrule
    rcases List.mem_filterMap.mp hrule with ⟨n, _, hf⟩
    unfold cssRuleFor at hf
    cases h1 : alookup n (reverseMappings positions) with
    | some m =>
      rw [h1] at hf
      cases h2 : alookup m positions with
      | none => simp [h2] at hf
      | some r =>
        simp only [h2, Option.map_some] at hf
        refine ⟨r, alookup_mem_values h2, ?_⟩
        rw [← Option.some_inj.mp hf]
        exact ⟨rfl, rfl, rfl, rfl⟩
    | none =>
      rw [h1] at hf
      cases h2 : alookup n positions with
      | none => simp [h2] at hf
      | some r =>
        simp only [h2, Option.map_some] at hf
        refine ⟨r, alookup_mem_values h2, ?_⟩
        rw [← Option.some_inj.mp hf]
        exact ⟨rfl, rfl, rfl, rfl⟩

/-- C9: when a name is simultaneously a `WEAPON_MAPPINGS` key whose
target is placed and itself a placed name, the emitted rule for it uses
the rect of the mapping target, not the name's own packed rect (the
reverse-mapping branch takes priority). -/
theorem generate_css_mapping_priority (positions : List (String × Rect))
    (name m : String) (r rown : Rect)
    (hm : alookup name WEAPON_MAPPINGS = some m)
    (hr : alookup m positions = some r)
    (hown : alookup name positions = some rown) :
    (∃ rule ∈ generate_css positions, rule.name = name) ∧
    ∀ rule ∈ generate_css positions, rule.name = name →
      rule.width = r.w ∧ rule.height = r.h ∧
      rule.bgX = -(r.x : Int) ∧ rule.bgY = -(r.y : Int) := by
  constructor
  · have hmem : name ∈ cssNames positions := by
      rw [mem_cssNames_iff]
      left
      rw [← alookup_isSome_iff, hown]
      rfl
    have hsome := cssRuleFor_isSome positions name
      ((mem_cssNames_iff _ _).mp hmem)
    cases hf : cssRuleFor positions name with
    | none => rw [hf] at hsome; exact absurd hsome (by simp)
    | some rule =>
      exact ⟨rule, List.mem_filterMap.mpr ⟨name, hmem, hf⟩, cssRuleFor_name hf⟩
  · intro rule hrule hname
    rcases List.mem_filterMap.mp hrule with ⟨n, _, hf⟩
    have hn : n = name := by rw [← cssRuleFor_name hf, hname]
    subst hn
    rw [cssRuleFor_mapped positions n m r hm hr] at hf
    injection hf with hf2
    rw [← hf2]
    exact ⟨rfl, rfl, rfl, rfl⟩

/-- Witness for C9: `knife` is both packed (at `(1,2,3,4)`) and mapped
to the packed `tf_weapon_knife` (at `(5,6,7,8)`); the emitted `knife`
rule carries the `tf_weapon_knife` rect. -/
theorem generate_css_mapping_priority_witness :
    alookup "knife" WEAPON_MAPPINGS = some "tf_weapon_knife" ∧
    alookup "tf_weapon_knife"
      [("knife", (⟨1, 2, 3, 4⟩ : Rect)), ("tf_weapon_knife", ⟨5, 6, 7, 8⟩)] =
      some ⟨5, 6, 7, 8⟩ ∧
    alookup "knife"
      [("knife", (⟨1, 2, 3, 4⟩ : Rect)), ("tf_weapon_knife", ⟨5, 6, 7, 8⟩)] =
      some ⟨1, 2, 3, 4⟩ ∧
    ((∃ rule ∈ generate_css
        [("knife", (⟨1, 2, 3, 4⟩ : Rect)), ("tf_weapon_knife", ⟨5, 6, 7, 8⟩)],
        rule.name = "knife") ∧
     ∀ rule ∈ generate_css
        [("knife", (⟨1, 2, 3, 4⟩ : Rect)), ("tf_weapon_knife", ⟨5, 6, 7, 8⟩)],
        rule.name = "knife" →
        rule.width = 7 ∧ rule.height = 8 ∧ rule.bgX = -5 ∧ rule.bgY = -6) :=
  ⟨by decide, by decide, by decide,
    generate_css_mapping_priority
      [("knife", ⟨1, 2, 3, 4⟩), ("tf_weapon_knife", ⟨5, 6, 7, 8⟩)]
      "knife" "tf_weapon_knife" ⟨5, 6, 7, 8⟩ ⟨1, 2, 3, 4⟩
      (by decide) (by decide) (by decide)⟩

/-! ## Definition-parser theorems (C4, C5) -/

/-- C4 counterexample: the claim says a numeric property whose value
does not parse is replaced by its default, so `docBadX` (a block with
`dfile = HUD/d_images` and `x = "abc"`) would yield a `foo` definition
with `x = 0`; in fact the `int()` failure makes the source skip the
whole block and the parse result is empty. -/
theorem parse_unparsable_counterexample :
    parse_mod_textures docBadX = [] ∧
    mkOfficialDef "foo" [("dfile", "HUD/d_images"), ("x", "abc")] = none := by
  constructor <;> decide

theorem mkOfficialDef_none_of_bad (name : String) (props : List (String × String))
    (hbad : pyIntProp props "x" 0 = none ∨ pyIntProp props "y" 0 = none ∨
      pyIntProp props "width" 32 = none ∨ pyIntProp props "height" 32 = none) :
    mkOfficialDef name props = none := by
  unfold mkOfficialDef
  cases hdf : alookup "dfile" props with
  | none => rfl
  | some dfile =>
    dsimp only
    by_cases hpre : "HUD/d_images".toList.isPrefixOf dfile.toList
    · rw [if_pos hpre]
      rcases hbad with h | h | h | h <;>
        cases hx : pyIntProp props "x" 0 <;>
        cases hy : pyIntProp props "y" 0 <;>
        cases hw : pyIntProp props "width" 32 <;>
        cases hh : pyIntProp props "height" 32 <;>
        simp_all
    · rw [if_neg hpre]

/-- C4 (amended): the defaults `0, 0, 32, 32` apply only when a numeric
property is absent; a present but unparsable value makes the source
skip the whole block (no definition is emitted — with a console warning
in the official parser and silently in the community parser, neither of
which is modelled); and a skipped block does not abort the run — the
following block is still parsed. -/
theorem parse_defaults_and_skip :
    (∀ (name dfile : String),
      "HUD/d_images".toList.isPrefixOf dfile.toList = true →
      mkOfficialDef name [("dfile", dfile)] =
        some ⟨name, pyLower ((removeHUD dfile.toList).asString), 0, 0, 32, 32⟩) ∧
    (∀ (name : String) (props : List (String × String)) (k v : String),
      k ∈ (["x", "y", "width", "height"] : List String) →
      alookup k props = some v → pyInt? v = none →
      mkOfficialDef name props = none) ∧
    parse_mod_textures (docBadX ++ "\n" ++ docGood) =
      [("bar", ⟨"bar", "d_images_v2", 64, 0, 32, 32⟩)] := by
  refine ⟨?_, ?_, by decide⟩
  · intro name dfile h
    unfold mkOfficialDef
    rw [show alookup "dfile" [("dfile", dfile)] = some dfile from rfl]
    dsimp only
    rw [if_pos h]
    rw [show pyIntProp [("dfile", dfile)] "x" 0 = some 0 from rfl]
    rw [show pyIntProp [("dfile", dfile)] "y" 0 = some 0 from rfl]
    rw [show pyIntProp [("dfile", dfile)] "width" 32 = some 32 from rfl]
    rw [show pyIntProp [("dfile", dfile)] "height" 32 = some 32 from rfl]
  · intro name props k v hk hl hn
    apply mkOfficialDef_none_of_bad
    have hkk : k = "x" ∨ k = "y" ∨ k = "width" ∨ k = "height" := by
      simpa using hk
    rcases hkk with rfl | rfl | rfl | rfl
    · left
      unfold pyIntProp
      rw [hl]
      exact hn
    · right; left
      unfold pyIntProp
      rw [hl]
      exact hn
    · right; right; left
      unfold pyIntProp
      rw [hl]
      exact hn
    · right; right; right
      unfold pyIntProp
      rw [hl]
      exact hn

/-- Witness for C4: a block with only a `dfile` gets the full defaults;
a block with `x = "abc"` is rejected. -/
theorem parse_defaults_and_skip_witness :
    ("HUD/d_images".toList.isPrefixOf "HUD/d_images_v9".toList = true) ∧
    mkOfficialDef "foo" [("dfile", "HUD/d_images_v9")] =
      some ⟨"foo", "d_images_v9", 0, 0, 32, 32⟩ ∧
    ("x" ∈ (["x", "y", "width", "height"] : List String)) ∧
    alookup "x" [("dfile", "HUD/d_images"), ("x", "abc")] = some "abc" ∧
    pyInt? "abc" = none ∧
    mkOfficialDef "foo" [("dfile", "HUD/d_images"), ("x", "abc")] = none :=
  ⟨by decide,
    parse_defaults_and_skip.1 "foo" "HUD/d_images_v9" (by decide),
    by decide, by decide, by decide,
    parse_defaults_and_skip.2.1 "foo" [("dfile", "HUD/d_images"), ("x", "abc")]
      "x" "abc" (by decide) (by decide) (by decide)⟩

/-- C5 counterexample: acceptance is not a case-insensitive prefix
match.  A lower-cased `hud/d_images` path is rejected by the official
parser (its `startswith` test is case-sensitive), while the community
parser accepts `improvedkillicons` anywhere in the path (substring, not
prefix) and does not lower-case the derived sheet tail (`community_D`,
not `community_d`). -/
theorem block_acceptance_counterexample :
    mkOfficialDef "foo" [("dfile", "hud/d_images")] = none ∧
    mkCommunityDef "foo" [("dfile", "logos\\IMPROVEDKILLICONS\\D")] =
      some ⟨"foo", "community_D", 0, 0, 32, 32⟩ := by
  constructor <;> decide

/-- All four numeric properties of a block parse (absent ones default). -/
def numericOk (props : List (String × String)) : Prop :=
  (pyIntProp props "x" 0).isSome ∧ (pyIntProp props "y" 0).isSome ∧
  (pyIntProp props "width" 32).isSome ∧ (pyIntProp props "height" 32).isSome

/-- C5 (amended): a block is accepted by the official parser iff it has
a `dfile` value starting case-sensitively with `HUD/d_images` and its
present numeric properties parse, and its sheet id is the `dfile` value
with the `HUD/` occurrences removed, lower-cased; a block is accepted
by the community parser iff its `dfile` contains `improvedkillicons`
case-insensitively (anywhere, not as a prefix) and the numerics parse,
and its sheet id is `community_` plus the last path component, not
lower-cased. -/
theorem block_acceptance_characterization :
    (∀ (name : String) (props : List (String × String)),
      (mkOfficialDef name props).isSome ↔
        ((∃ d, alookup "dfile" props = some d ∧
          "HUD/d_images".toList.isPrefixOf d.toList = true) ∧ numericOk props)) ∧
    (∀ (name : String) (props : List (String × String)) (d : String)
      (df : KilliconDefinition), alookup "dfile" props = some d →
      mkOfficialDef name props = some df →
      df.sprite = pyLower ((removeHUD d.toList).asString)) ∧
    (∀ (name : String) (props : List (String × String)),
      (mkCommunityDef name props).isSome ↔
        ((∃ d, alookup "dfile" props = some d ∧
          strContains (pyLower d) "improvedkillicons" = true) ∧ numericOk props)) ∧
    (∀ (name : String) (props : List (String × String)) (d : String)
      (df : KilliconDefinition), alookup "dfile" props = some d →
      mkCommunityDef name props = some df →
      df.sprite = "community_" ++
        (lastD [] (splitOnChar '/'
          (d.toList.map (fun c => if c = '\\' then '/' else c)))).asString) := by
  refine ⟨?_, ?_, ?_, ?_⟩
  · intro name props
    unfold mkOfficialDef numericOk
    cases hdf : alookup "dfile" props with
    | none => simp
    | some d =>
      dsimp only
      by_cases hpre : "HUD/d_images".toList.isPrefixOf d.toList
      · rw [if_pos hpre]
        cases hx : pyIntProp props "x" 0 <;>
          cases hy : pyIntProp props "y" 0 <;>
          cases hw : pyIntProp props "width" 32 <;>
          cases hh : pyIntProp props "height" 32 <;>
          simp [hx, hy, hw, hh] <;>
          simpa using hpre
      · rw [if_neg hpre]
        constructor
        · intro hfalse
          exact absurd hfalse (by simp)
        · rintro ⟨⟨d2, hd2, hpred⟩, _⟩
          injection hd2 with hdd
          subst hdd
          exact absurd hpred hpre
  · intro name props d df hdf h
    unfold mkOfficialDef at h
    rw [hdf] at h
    dsimp only at h
    by_cases hpre : "HUD/d_images".toList.isPrefixOf d.toList
    · rw [if_pos hpre] at h
      cases hx : pyIntProp props "x" 0 <;>
        cases hy : pyIntProp props "y" 0 <;>
        cases hw : pyIntProp props "width" 32 <;>
        cases hh : pyIntProp props "height" 32 <;>
        simp_all <;>
        try rw [← h]
    · rw [if_neg hpre] at h
      simp at h
  · intro name props
    unfold mkCommunityDef numericOk
    cases hdf : alookup "dfile" props with
    | none => simp
    | some d =>
      dsimp only
      by_cases hsub : strContains (pyLower d) "improvedkillicons"
      · rw [if_pos hsub]
        cases hx : pyIntProp props "x" 0 <;>
          cases hy : pyIntProp props "y" 0 <;>
          cases hw : pyIntProp props "width" 32 <;>
          cases hh : pyIntProp props "height" 32 <;>
          simp [hx, hy, hw, hh] <;>
          simpa using hsub
      · rw [if_neg hsub]
        constructor
        · intro hfalse
          exact absurd hfalse (by simp)
        · rintro ⟨⟨d2, hd2, hpred⟩, _⟩
          injection hd2 with hdd
          subst hdd
          exact absurd hpred hsub
  · intro name props d df hdf h
    unfold mkCommunityDef at h
    rw [hdf] at h
    dsimp only at h
    by_cases hsub : strContains (pyLower d) "improvedkillicons"
    · rw [if_pos hsub] at h
      cases hx : pyIntProp props "x" 0 <;>
        cases hy : pyIntProp props "y" 0 <;>
        cases hw : pyIntProp props "width" 32 <;>
        cases hh : pyIntProp props "height" 32 <;>
        simp_all <;>
        try rw [← h]
    · rw [if_neg hsub] at h
      simp at h

/-- Witness for C5 at concrete blocks for both parsers. -/
theorem block_acceptance_characterization_witness :
    alookup "dfile" [("dfile", "HUD/d_images_v2")] = some "HUD/d_images_v2" ∧
    mkOfficialDef "w1" [("dfile", "HUD/d_images_v2")] =
      some ⟨"w1", "d_images_v2", 0, 0, 32, 32⟩ ∧
    ("w1", (⟨"w1", "d_images_v2", 0, 0, 32, 32⟩ : KilliconDefinition)).2.sprite =
      pyLower ((removeHUD "HUD/d_images_v2".toList).asString) ∧
    ((mkOfficialDef "w1" [("dfile", "HUD/d_images_v2")]).isSome ↔
      ((∃ d, alookup "dfile" [("dfile", "HUD/d_images_v2")] = some d ∧
        "HUD/d_images".toList.isPrefixOf d.toList = true) ∧
        numericOk [("dfile", "HUD/d_images_v2")])) :=
  ⟨by decide, by decide, by decide,
    block_acceptance_characterization.1 "w1" [("dfile", "HUD/d_images_v2")]⟩
